import Mathlib

/-!
Verification development for the terraform-config-parser repository.

The Go sources in `pkg/parser/schema/schema.go`, the schema block decoders
(`Variable`, `Output`, `Terraform`, `VariableValidation`), `pkg/parser/parser.go`
and `pkg/parser/tfconfig.go` are shallowly embedded below.  Machine strings are
modelled as Lean `String` (lists of characters), HCL `cty` numbers (arbitrary
precision `big.Float` values produced by the literal scanner) as `ℚ`, Go's
`int64` conversion with its explicit saturation bounds, and fallible decoders
as `Except String`.
-/

namespace TfParser

/-- Whitespace test used by Go's `strings.TrimSpace` (ASCII part; the claims
only exercise ASCII input). -/
def isSpaceChar (c : Char) : Bool :=
  c = ' ' || c = '\t' || c = '\n' || c = '\r' || c = '\x0b' || c = '\x0c'

/-- List-level trim: drop leading and trailing whitespace characters. -/
def trimChars (l : List Char) : List Char :=
  ((l.dropWhile isSpaceChar).reverse.dropWhile isSpaceChar).reverse

/-- Model of Go `strings.TrimSpace`: drop leading and trailing whitespace. -/
def trimSpace (s : String) : String :=
  ⟨trimChars s.data⟩

/-- Model of Go `strings.ToLower`: lowercase every character. -/
def toLowerStr (s : String) : String :=
  ⟨s.data.map Char.toLower⟩

/-- Model of Go `strings.Trim(s, cutset)`: drop leading and trailing characters
belonging to the cutset. -/
def trimCharSet (cs : List Char) (s : String) : String :=
  ⟨((s.data.dropWhile (cs.contains ·)).reverse.dropWhile (cs.contains ·)).reverse⟩

/-- An `hcl.Range`, reduced to the byte offsets used by `SliceBytes`. -/
structure ByteRange where
  startByte : Nat
  stopByte : Nat
deriving Repr, DecidableEq

/-- Model of `hcl.Range.SliceBytes(fileBytes)`: the slice
`fileBytes[start:stop]`. -/
def sliceBytes (bytes : String) (r : ByteRange) : String :=
  ⟨(bytes.data.drop r.startByte).take (r.stopByte - r.startByte)⟩

/-- A scalar `cty.Value` as produced by the HCL literal scanner: string,
number (arbitrary-precision, modelled as `ℚ`), bool, or null. -/
inductive CtyValue where
  | str (s : String)
  | num (q : ℚ)
  | bool (b : Bool)
  | null
deriving Repr, DecidableEq

/-- `cty.Value.AsString` for the values reachable here (non-string values make
the Go call abort; the decoders only ever reach the string case). -/
def CtyValue.asStr : CtyValue → String
  | .str s => s
  | _ => ""

/-- The `hclsyntax.Expression` union, one constructor per expression kind that
`schema.go`'s type switches distinguish or fall through on.  Every node carries
its source byte range (`Expr.Range()`). -/
inductive Expr where
  | literalValue (v : CtyValue) (rng : ByteRange)
  | template (parts : List Expr) (rng : ByteRange)
  | templateWrap (wrapped : Expr) (rng : ByteRange)
  | scopeTraversal (rootName : String) (rng : ByteRange)
  | tupleCons (exprs : List Expr) (rng : ByteRange)
  | objectCons (items : List (Expr × Expr)) (rng : ByteRange)
  | objectConsKey (wrapped : Option Expr) (rng : ByteRange)
  | functionCall (callName : String) (args : List Expr) (rng : ByteRange)
  | conditional (cond trueRes falseRes : Expr) (rng : ByteRange)
  | binaryOp (lhs rhs : Expr) (rng : ByteRange)
  | unaryOp (val : Expr) (rng : ByteRange)
  | indexAcc (coll key : Expr) (rng : ByteRange)
  | getAttrAcc (obj : Expr) (attrName : String) (rng : ByteRange)
  | splat (src : Expr) (rng : ByteRange)
  | forExpr (rng : ByteRange)
  | paren (inner : Expr) (rng : ByteRange)

/-- `Expr.Range()`. -/
def Expr.range : Expr → ByteRange
  | .literalValue _ r => r
  | .template _ r => r
  | .templateWrap _ r => r
  | .scopeTraversal _ r => r
  | .tupleCons _ r => r
  | .objectCons _ r => r
  | .objectConsKey _ r => r
  | .functionCall _ _ r => r
  | .conditional _ _ _ r => r
  | .binaryOp _ _ r => r
  | .unaryOp _ r => r
  | .indexAcc _ _ r => r
  | .getAttrAcc _ _ r => r
  | .splat _ r => r
  | .forExpr r => r
  | .paren _ r => r

/-- `hclsyntax.Attribute` (name plus expression; the fake attributes built in
`schema.go` leave the name empty). -/
structure Attribute where
  attrName : String
  expr : Expr

/-- The Go `interface{}` values that `parseAttributeToInterface` can return:
`string`, `int64`, `float64` (value kept exact as `ℚ`), `bool`, `nil`. -/
inductive GoValue where
  | str (s : String)
  | int (i : ℤ)
  | float (q : ℚ)
  | bool (b : Bool)
  | nil
deriving Repr, DecidableEq

def int64Max : ℤ := 9223372036854775807
def int64Min : ℤ := -9223372036854775808

/-- `big.Float.Int64()` on an integral value: truncation with saturation at the
`int64` bounds. -/
def int64Clamp (n : ℤ) : ℤ :=
  if int64Max < n then int64Max
  else if n < int64Min then int64Min
  else n

/-- The raw-source fallback of `parseAttributeToInterface`:
`strings.TrimSpace(string(attr.Expr.Range().SliceBytes(file.Bytes)))`. -/
def rawTextFallback (file : String) (e : Expr) : GoValue :=
  .str (trimSpace (sliceBytes file e.range))

/-- `schema.parseAttributeToInterface`: literal scalars map to their Go values
(integral numbers through `big.Float.Int64`, hence `int64Clamp`); a
single-part template whose part is a literal string unwraps to that string;
everything else returns the trimmed raw source slice. -/
def parseAttributeToInterface (file : String) (attr : Attribute) : GoValue :=
  match attr.expr with
  | .literalValue v _ =>
    match v with
    | .str s => .str s
    | .num q => if q.den = 1 then .int (int64Clamp q.num) else .float q
    | .bool b => .bool b
    | .null => .nil
  | .template parts rng =>
    match parts with
    | [p] =>
      match p with
      | .literalValue (.str s) _ => .str s
      | _ => rawTextFallback file (.template parts rng)
    | _ => rawTextFallback file (.template parts rng)
  | e => rawTextFallback file e

/-- Go's `%g` rendering of the float64; the claims never depend on the decimal
rendering, so the exact rational's `toString` stands in for it. -/
def goFormatFloat (q : ℚ) : String := toString q

/-- `schema.parseAttributeToString`. -/
def parseAttributeToString (file : String) (attr : Attribute) : String :=
  match parseAttributeToInterface file attr with
  | .str s => s
  | .bool b => if b then "true" else "false"
  | .int i => toString i
  | .float q => goFormatFloat q
  | .nil => "null"

/-- `schema.parseAttributeToBool`. -/
def parseAttributeToBool (file : String) (attr : Attribute) : Bool :=
  match parseAttributeToInterface file attr with
  | .bool b => b
  | .str v =>
    let t := toLowerStr (trimSpace v)
    if t = "true" then true
    else if t = "false" then false
    else false
  | _ => false

/-- `schema.parseAttributeToStringList`. -/
def parseAttributeToStringList (file : String) (attr : Attribute) : List String :=
  match attr.expr with
  | .tupleCons exprs _ =>
    exprs.map (fun e => parseAttributeToString file { attrName := "", expr := e })
  | e =>
    let raw := trimCharSet ['[', ']'] (trimSpace (sliceBytes file e.range))
    if raw = "" then []
    else
      (raw.splitOn ",").filterMap (fun part =>
        let p := trimCharSet ['"'] (trimSpace part)
        if p = "" then none else some p)

/-- `schema.extractObjectKey`. -/
def extractObjectKey : Expr → String
  | .objectConsKey wrapped _ =>
    match wrapped with
    | some (.literalValue v _) => v.asStr
    | some (.scopeTraversal root _) => root
    | _ => ""
  | .literalValue v _ => v.asStr
  | .scopeTraversal root _ => if root = "" then "" else root
  | _ => ""

/-- Go map write `result[key] = value` on an association-list model:
overwrite in place if the key exists, append otherwise. -/
def assocInsert {α : Type} (m : List (String × α)) (k : String) (v : α) :
    List (String × α) :=
  if m.any (fun p => p.1 = k) then
    m.map (fun p => if p.1 = k then (k, v) else p)
  else m ++ [(k, v)]

/-- Go map read `m[k]` with the type's zero value for a missing key. -/
def assocLookupD {α : Type} (m : List (String × α)) (k : String) (d : α) : α :=
  match m.find? (fun p => p.1 = k) with
  | some p => p.2
  | none => d

/-- `schema.parseAttributeToStringMap`: object-construction expressions become
a key/value map, every other expression yields the empty map. -/
def parseAttributeToStringMap (file : String) (attr : Attribute) :
    List (String × String) :=
  match attr.expr with
  | .objectCons items _ =>
    items.foldl (fun result item =>
      let key := extractObjectKey item.1
      if key ≠ "" then
        assocInsert result key
          (parseAttributeToString file { attrName := "", expr := item.2 })
      else result) []
  | _ => []

/-- `hclsyntax.Block`: block keyword, labels, the body's attribute map
(association list keyed by attribute name) and nested blocks. -/
inductive Block where
  | mk (btype : String) (labels : List String)
      (attrs : List (String × Attribute)) (nested : List Block)

def Block.btype : Block → String
  | .mk t _ _ _ => t

def Block.labels : Block → List String
  | .mk _ l _ _ => l

def Block.attrs : Block → List (String × Attribute)
  | .mk _ _ a _ => a

def Block.nested : Block → List Block
  | .mk _ _ _ b => b

/-- Go map read `block.Body.Attributes[name]` (keys are unique in an HCL
body, so first match is the match). -/
def lookupAttribute (attrs : List (String × Attribute)) (k : String) :
    Option Attribute :=
  (attrs.find? (fun p => p.1 = k)).map (fun p => p.2)

/-- `schema.VariableValidation`. -/
structure VariableValidation where
  condition : String
  errorMessage : String
deriving Repr, DecidableEq

/-- `schema.Variable` (field `vtype`/`vdefault` stand for the Go `Type` and
`Default` fields; a Go `interface{}` zero value is `GoValue.nil`). -/
structure Variable where
  varName : String
  description : String
  vtype : String
  vdefault : GoValue
  required : Bool
  sensitive : Bool
  validation : List VariableValidation
deriving Repr, DecidableEq

/-- `schema.Output`. -/
structure Output where
  outName : String
  description : String
  sensitive : Bool
deriving Repr, DecidableEq

/-- `schema.RequiredProvider`. -/
structure RequiredProvider where
  source : String
  version : String
deriving Repr, DecidableEq

/-- `schema.Terraform`. -/
structure Terraform where
  requiredVersion : String
  experiments : List String
  requiredProviders : List (String × RequiredProvider)
deriving Repr, DecidableEq

/-- `schema.VariableValidation.Parse`. -/
def VariableValidation.Parse (file : String) (block : Block) :
    Except String VariableValidation :=
  match lookupAttribute block.attrs "condition" with
  | none => .error "condition is missing in validation block"
  | some conditionAttr =>
    match lookupAttribute block.attrs "error_message" with
    | none => .error "error_message is missing in validation block"
    | some errorMessageAttr =>
      .ok { condition := parseAttributeToString file conditionAttr,
            errorMessage := parseAttributeToString file errorMessageAttr }

/-- The nested-block loop of `schema.Variable.Parse`: decode every nested
`validation` block in order, wrapping the first failure with the parent
variable's name; other nested keywords are skipped. -/
def parseValidationBlocks (file : String) (varName : String) :
    List Block → Except String (List VariableValidation)
  | [] => .ok []
  | b :: rest =>
    if b.btype = "validation" then
      match VariableValidation.Parse file b with
      | .error e =>
        .error ("error parsing validation for variable " ++ varName ++ ": " ++ e)
      | .ok v =>
        match parseValidationBlocks file varName rest with
        | .error e => .error e
        | .ok vs => .ok (v :: vs)
    else parseValidationBlocks file varName rest

/-- `schema.Variable.Parse`. -/
def Variable.Parse (file : String) (block : Block) : Except String Variable :=
  match block.labels with
  | [label0] =>
    let attrs := block.attrs
    let description :=
      match lookupAttribute attrs "description" with
      | some a => parseAttributeToString file a
      | none => ""
    let vtype :=
      match lookupAttribute attrs "type" with
      | some a => parseAttributeToString file a
      | none => ""
    let defaultRequired :=
      match lookupAttribute attrs "default" with
      | some a => (parseAttributeToInterface file a, false)
      | none => (GoValue.nil, true)
    let sensitive :=
      match lookupAttribute attrs "sensitive" with
      | some a => parseAttributeToBool file a
      | none => false
    match parseValidationBlocks file label0 block.nested with
    | .error e => .error e
    | .ok vs =>
      .ok { varName := label0, description := description, vtype := vtype,
            vdefault := defaultRequired.1, required := defaultRequired.2,
            sensitive := sensitive, validation := vs }
  | _ => .error "variable block must have one label"

/-- `schema.Output.Parse`.  NOTE: the source's label-arity error message reads
"variable block must have one label" verbatim. -/
def Output.Parse (file : String) (block : Block) : Except String Output :=
  match block.labels with
  | [label0] =>
    let attrs := block.attrs
    let description :=
      match lookupAttribute attrs "description" with
      | some a => parseAttributeToString file a
      | none => ""
    let sensitive :=
      match lookupAttribute attrs "sensitive" with
      | some a => parseAttributeToBool file a
      | none => false
    .ok { outName := label0, description := description, sensitive := sensitive }
  | _ => .error "variable block must have one label"

/-- The inner attribute loop of the `required_providers` case in
`schema.Terraform.Parse` (Go iterates the body's attribute map; the
association list fixes one admissible order). -/
def parseRequiredProviderAttrs (file : String)
    (m : List (String × RequiredProvider)) :
    List (String × Attribute) → List (String × RequiredProvider)
  | [] => m
  | (providerName, attr) :: rest =>
    let providerConfig := parseAttributeToStringMap file attr
    let provider : RequiredProvider :=
      { source := assocLookupD providerConfig "source" "",
        version := assocLookupD providerConfig "version" "" }
    parseRequiredProviderAttrs file (assocInsert m providerName provider) rest

/-- The nested-block loop of `schema.Terraform.Parse`: every nested
`required_providers` block contributes its attributes as providers. -/
def parseRequiredProvidersBlocks (file : String)
    (m : List (String × RequiredProvider)) :
    List Block → List (String × RequiredProvider)
  | [] => m
  | b :: rest =>
    if b.btype = "required_providers" then
      parseRequiredProvidersBlocks file
        (parseRequiredProviderAttrs file m b.attrs) rest
    else parseRequiredProvidersBlocks file m rest

/-- `schema.Terraform.Parse`. -/
def Terraform.Parse (file : String) (block : Block) : Except String Terraform :=
  match block.labels with
  | [] =>
    let attrs := block.attrs
    let requiredVersion :=
      match lookupAttribute attrs "required_version" with
      | some a => parseAttributeToString file a
      | none => ""
    let experiments :=
      match lookupAttribute attrs "experiments" with
      | some a => parseAttributeToStringList file a
      | none => []
    .ok { requiredVersion := requiredVersion, experiments := experiments,
          requiredProviders := parseRequiredProvidersBlocks file [] block.nested }
  | _ => .error "terraform block must not have labels"

/-- The `schema.Block` interface value held in `parser.parseBlocks`' result
slice: one of the three decoded record kinds. -/
inductive ParsedBlock where
  | variableBlock (v : Variable)
  | outputBlock (o : Output)
  | terraformBlock (t : Terraform)
deriving Repr, DecidableEq

/-- One iteration of the block loop in `parser.parseBlocks`: dispatch on the
block keyword, decode, and wrap a decoder failure as
`failed to parse <keyword> block: <cause>`; unsupported keywords are skipped
(`none`). -/
def parseOneBlock (file : String) (b : Block) :
    Except String (Option ParsedBlock) :=
  if b.btype = "variable" then
    match Variable.Parse file b with
    | .ok v => .ok (some (.variableBlock v))
    | .error e => .error ("failed to parse " ++ b.btype ++ " block: " ++ e)
  else if b.btype = "output" then
    match Output.Parse file b with
    | .ok o => .ok (some (.outputBlock o))
    | .error e => .error ("failed to parse " ++ b.btype ++ " block: " ++ e)
  else if b.btype = "terraform" then
    match Terraform.Parse file b with
    | .ok t => .ok (some (.terraformBlock t))
    | .error e => .error ("failed to parse " ++ b.btype ++ " block: " ++ e)
  else .ok none

/-- `parser.parseBlocks`: decode the file's top-level blocks in order,
aborting on the first failure. -/
def parseBlocks (file : String) : List Block → Except String (List ParsedBlock)
  | [] => .ok []
  | b :: rest =>
    match parseOneBlock file b with
    | .error e => .error e
    | .ok none => parseBlocks file rest
    | .ok (some pb) =>
      match parseBlocks file rest with
      | .error e => .error e
      | .ok pbs => .ok (pb :: pbs)

/-- `parser.TerraformConfig`. -/
structure TerraformConfig where
  Variables : List Variable
  Outputs : List Output
  Terraforms : List Terraform
deriving Repr, DecidableEq

/-- One iteration of `parser.generateTerraformConfig`'s loop: the type switch
appending the block to the list of its kind. -/
def tfconfigStep (cfg : TerraformConfig) (b : ParsedBlock) : TerraformConfig :=
  match b with
  | .variableBlock v => { cfg with Variables := cfg.Variables ++ [v] }
  | .outputBlock o => { cfg with Outputs := cfg.Outputs ++ [o] }
  | .terraformBlock t => { cfg with Terraforms := cfg.Terraforms ++ [t] }

/-- `parser.generateTerraformConfig`: partition the aggregated block list by
record kind, in order. -/
def generateTerraformConfig (blocks : List ParsedBlock) : TerraformConfig :=
  blocks.foldl tfconfigStep ⟨[], [], []⟩

/-- A directory entry as surfaced by the filesystem collaborator
(`os.FileInfo` name and directory flag). -/
structure DirEntry where
  entryName : String
  isDir : Bool
deriving Repr, DecidableEq

/-- A parsed `hcl.File`: its raw bytes and its top-level syntax blocks. -/
structure HclFile where
  fileBytes : String
  blocks : List Block

/-- `path/filepath.Ext`: the suffix beginning at the final dot of the last
path element, or the empty string when that element has no dot. -/
def filepathExt (pathName : String) : String :=
  let rev := pathName.data.reverse
  let pre := rev.takeWhile (fun c => c ≠ '.' && c ≠ '/')
  match rev.drop pre.length with
  | '.' :: _ => ⟨'.' :: pre.reverse⟩
  | _ => ""

/-- One workspace directory entry together with the outcome of the external
HCL load step (`Parser.loadHcl`, which reads and syntax-parses the file). -/
structure WorkspaceFile where
  entry : DirEntry
  load : Except String HclFile

/-- The skip test of `ParseTerraformWorkspace`'s file loop:
`dirFile.IsDir() || filepath.Ext(dirFile.Name()) != ".tf"`. -/
def skippedEntry (wf : WorkspaceFile) : Bool :=
  wf.entry.isDir || (filepathExt wf.entry.entryName != ".tf")

/-- The file loop of `parser.ParseTerraformWorkspace`: skip directories and
non-`.tf` entries, abort on the first load or block-decode failure (wrapping
it with the file name), and concatenate the decoded blocks of all files in
enumeration order. -/
def parseWorkspaceFiles : List WorkspaceFile → Except String (List ParsedBlock)
  | [] => .ok []
  | wf :: rest =>
    if skippedEntry wf then parseWorkspaceFiles rest
    else
      match wf.load with
      | .error e =>
        .error ("failed to load terraform file " ++ wf.entry.entryName ++ ": " ++ e)
      | .ok hclFile =>
        match parseBlocks hclFile.fileBytes hclFile.blocks with
        | .error e =>
          .error ("failed to parse terraform blocks in " ++ wf.entry.entryName ++ ": " ++ e)
        | .ok blocks =>
          match parseWorkspaceFiles rest with
          | .error e => .error e
          | .ok more => .ok (blocks ++ more)

/-- `parser.ParseTerraformWorkspace`, from the point where the directory has
been verified and enumerated (the directory-existence and read errors are
raised by the external filesystem collaborator before this loop). -/
def ParseTerraformWorkspace (files : List WorkspaceFile) :
    Except String TerraformConfig :=
  match parseWorkspaceFiles files with
  | .error e => .error e
  | .ok blocks => .ok (generateTerraformConfig blocks)

/-- `attr.Expr` is an `hclsyntax.LiteralValueExpr` (resolution step 1 of the
normalizer). -/
def isLiteralScalar : Expr → Bool
  | .literalValue _ _ => true
  | _ => false

/-- `attr.Expr` is a `TemplateExpr` with exactly one part, that part being a
literal string (resolution step 2 of the normalizer). -/
def isSinglePartLiteralStringTemplate : Expr → Bool
  | .template [.literalValue (.str _) _] _ => true
  | _ => false

/-- Bool substring test: `sub` occurs contiguously in `s`. -/
def strContainsSub (s subStr : String) : Bool :=
  (List.range (s.data.length + 1)).any
    (fun i => (s.data.drop i).take subStr.data.length == subStr.data)

theorem dropWhile_idem (p : Char → Bool) (l : List Char) :
    (l.dropWhile p).dropWhile p = l.dropWhile p := by
  induction l with
  | nil => rfl
  | cons a l ih =>
    by_cases hpa : p a
    · simpa [List.dropWhile_cons, hpa] using ih
    · simp [List.dropWhile_cons, hpa]

theorem dropWhile_eq_self_of_append (p : Char → Bool) (r t : List Char)
    (h : (r ++ t).dropWhile p = r ++ t) : r.dropWhile p = r := by
  cases r with
  | nil => rfl
  | cons x xs =>
    by_cases hx : p x
    · exfalso
      rw [List.cons_append, List.dropWhile_cons_of_pos hx] at h
      have hlen := congrArg List.length h
      have hle : ((xs ++ t).dropWhile p).length ≤ (xs ++ t).length :=
        (List.dropWhile_sublist p).length_le
      simp [List.length_append] at hlen hle
      omega
    · exact List.dropWhile_cons_of_neg hx

theorem trimChars_idem (l : List Char) : trimChars (trimChars l) = trimChars l := by
  unfold trimChars
  set a := l.dropWhile isSpaceChar with ha
  have h1 : a.dropWhile isSpaceChar = a := by rw [ha]; exact dropWhile_idem _ _
  set t := a.reverse.dropWhile isSpaceChar with ht
  have h2 : t.dropWhile isSpaceChar = t := by rw [ht]; exact dropWhile_idem _ _
  have hdecomp : a.reverse.takeWhile isSpaceChar ++ t = a.reverse := by
    rw [ht]; exact List.takeWhile_append_dropWhile isSpaceChar a.reverse
  have ha2 : t.reverse ++ (a.reverse.takeWhile isSpaceChar).reverse = a := by
    have hr := congrArg List.reverse hdecomp
    simpa using hr
  have h3 : t.reverse.dropWhile isSpaceChar = t.reverse :=
    dropWhile_eq_self_of_append isSpaceChar t.reverse _ (by rw [ha2]; exact h1)
  rw [h3, List.reverse_reverse, h2]

theorem trimSpace_idem (s : String) : trimSpace (trimSpace s) = trimSpace s :=
  congrArg String.mk (trimChars_idem s.data)

/-- C1 counterexample: the number literal 2^63 = 9223372036854775808 has zero
fractional part (its arbitrary-precision value is integral), but the
`big.Float.Int64` conversion saturates at 2^63 - 1, so the Integer variant
returned by `parseAttributeToInterface` does not hold the exact value. -/
theorem normalize_int64_saturation_counterexample :
    (mkRat 9223372036854775808 1).den = 1 ∧
    parseAttributeToInterface ""
      { attrName := "default",
        expr := .literalValue (.num (mkRat 9223372036854775808 1)) ⟨0, 19⟩ } =
      .int 9223372036854775807 ∧
    (9223372036854775807 : ℤ) ≠ (mkRat 9223372036854775808 1).num := by
  refine ⟨by decide, by decide, by decide⟩

/-- C1 (amended): a literal scalar normalizes to the matching variant — string
to String, boolean to Bool, null to Null; a number with zero fractional part
(decided by arbitrary-precision comparison, `q.den = 1`) to Integer, holding
the exact value whenever it fits the signed 64-bit range and the saturated
int64 bound otherwise; any other number to Float. -/
theorem normalize_literal_scalar (file nm : String) (rng : ByteRange) :
    (∀ s, parseAttributeToInterface file
      { attrName := nm, expr := .literalValue (.str s) rng } = .str s) ∧
    (∀ b, parseAttributeToInterface file
      { attrName := nm, expr := .literalValue (.bool b) rng } = .bool b) ∧
    (parseAttributeToInterface file
      { attrName := nm, expr := .literalValue .null rng } = .nil) ∧
    (∀ n : ℤ, int64Min ≤ n → n ≤ int64Max →
      parseAttributeToInterface file
        { attrName := nm, expr := .literalValue (.num (n : ℚ)) rng } = .int n) ∧
    (∀ n : ℤ, parseAttributeToInterface file
      { attrName := nm, expr := .literalValue (.num (n : ℚ)) rng } =
        .int (int64Clamp n)) ∧
    (∀ q : ℚ, (∀ n : ℤ, q ≠ (n : ℚ)) →
      parseAttributeToInterface file
        { attrName := nm, expr := .literalValue (.num q) rng } = .float q) := by
  refine ⟨fun s => rfl, fun b => rfl, rfl, ?_, ?_, ?_⟩
  · intro n h1 h2
    simp [parseAttributeToInterface, Rat.den_intCast, Rat.num_intCast,
      int64Clamp]
    rw [if_neg (by omega), if_neg (by omega)]
  · intro n
    simp [parseAttributeToInterface, Rat.den_intCast, Rat.num_intCast]
  · intro q hq
    have hden : ¬ q.den = 1 := by
      intro hd
      exact hq q.num ((Rat.den_eq_one_iff q).mp hd).symm
    simp [parseAttributeToInterface, hden]

/-- Closed instance of C1 (amended): 42 normalizes to Integer 42 and 1/2 to
Float 1/2. -/
theorem normalize_literal_scalar_witness :
    parseAttributeToInterface ""
      { attrName := "a", expr := .literalValue (.num ((42 : ℤ) : ℚ)) ⟨0, 2⟩ } =
      .int 42 ∧
    parseAttributeToInterface ""
      { attrName := "a", expr := .literalValue (.num (mkRat 1 2)) ⟨0, 3⟩ } =
      .float (mkRat 1 2) := by
  constructor
  · exact (normalize_literal_scalar "" "a" ⟨0, 2⟩).2.2.2.1 42 (by decide) (by decide)
  · refine (normalize_literal_scalar "" "a" ⟨0, 3⟩).2.2.2.2.2 (mkRat 1 2) ?_
    intro n hn
    have hden1 : (mkRat 1 2).den = 1 := by rw [hn]; exact Rat.den_intCast n
    have hden2 : (mkRat 1 2).den = 2 := by decide
    omega

/-- C2: a single-part template whose part is a literal string normalizes to
the String variant holding that literal's text, equal to normalizing the inner
literal directly. -/
theorem normalize_single_part_template (file nm nm2 s : String)
    (r1 r2 : ByteRange) :
    parseAttributeToInterface file
      { attrName := nm, expr := .template [.literalValue (.str s) r1] r2 } =
      .str s ∧
    parseAttributeToInterface file
      { attrName := nm, expr := .template [.literalValue (.str s) r1] r2 } =
      parseAttributeToInterface file
        { attrName := nm2, expr := .literalValue (.str s) r1 } :=
  ⟨rfl, rfl⟩

/-- C3: any expression that is neither a literal scalar nor a single-part
literal-string template normalizes to the RawText fallback — the source slice
of the expression's byte range trimmed of leading/trailing whitespace — and
re-trimming the same bytes is idempotent. -/
theorem normalize_rawtext_fallback (file nm : String) (e : Expr)
    (h1 : isLiteralScalar e = false)
    (h2 : isSinglePartLiteralStringTemplate e = false) :
    parseAttributeToInterface file { attrName := nm, expr := e } =
      .str (trimSpace (sliceBytes file e.range)) ∧
    trimSpace (trimSpace (sliceBytes file e.range)) =
      trimSpace (sliceBytes file e.range) := by
  refine ⟨?_, trimSpace_idem _⟩
  cases e with
  | literalValue v rng => simp [isLiteralScalar] at h1
  | template parts rng =>
    rcases parts with _ | ⟨p, rest⟩
    · rfl
    · rcases rest with _ | ⟨p2, rest2⟩
      · cases p with
        | literalValue v r =>
          cases v with
          | str s => simp [isSinglePartLiteralStringTemplate] at h2
          | num q => rfl
          | bool b => rfl
          | null => rfl
        | template ps r => rfl
        | templateWrap w r => rfl
        | scopeTraversal root r => rfl
        | tupleCons es r => rfl
        | objectCons its r => rfl
        | objectConsKey w r => rfl
        | functionCall n args r => rfl
        | conditional c t f r => rfl
        | binaryOp l rr r => rfl
        | unaryOp v r => rfl
        | indexAcc c k r => rfl
        | getAttrAcc o n r => rfl
        | splat sp r => rfl
        | forExpr r => rfl
        | paren i r => rfl
      · rfl
  | templateWrap w r => rfl
  | scopeTraversal root r => rfl
  | tupleCons es r => rfl
  | objectCons its r => rfl
  | objectConsKey w r => rfl
  | functionCall n args r => rfl
  | conditional c t f r => rfl
  | binaryOp l rr r => rfl
  | unaryOp v r => rfl
  | indexAcc c k r => rfl
  | getAttrAcc o n r => rfl
  | splat sp r => rfl
  | forExpr r => rfl
  | paren i r => rfl

/-- Closed instance of C3: a scope traversal falls back to the trimmed raw
source slice. -/
theorem normalize_rawtext_fallback_witness :
    parseAttributeToInterface " var.foo "
      { attrName := "t", expr := .scopeTraversal "var" ⟨0, 9⟩ } =
      .str "var.foo" ∧
    isLiteralScalar (.scopeTraversal "var" ⟨0, 9⟩) = false := by
  constructor
  · have h := normalize_rawtext_fallback " var.foo " "t"
      (.scopeTraversal "var" ⟨0, 9⟩) rfl rfl
    rw [h.1]
    decide
  · rfl

/-- C4 counterexample: the literal string " true " (with surrounding spaces)
normalizes to String " true ", which is not case-insensitively equal to
"true" or "false", yet `parseAttributeToBool` returns true because the code
trims whitespace before matching. -/
theorem asBool_untrimmed_counterexample :
    parseAttributeToInterface ""
      { attrName := "sensitive", expr := .literalValue (.str " true ") ⟨0, 8⟩ } =
      .str " true " ∧
    toLowerStr " true " ≠ "true" ∧
    toLowerStr " true " ≠ "false" ∧
    parseAttributeToBool ""
      { attrName := "sensitive", expr := .literalValue (.str " true ") ⟨0, 8⟩ } =
      true := by
  refine ⟨rfl, by decide, by decide, by decide⟩

/-- C4 (amended): `parseAttributeToBool` returns the Bool value unchanged when
the normalized result is Bool; when it is a String the code first trims
surrounding whitespace and then matches case-insensitively, returning true
exactly for (trimmed, lowercased) "true" and false for everything else,
including "false"; every other variant yields false.  The function is total:
no error path exists. -/
theorem parseAttributeToBool_spec (file : String) (attr : Attribute) :
    (∀ b, parseAttributeToInterface file attr = .bool b →
      parseAttributeToBool file attr = b) ∧
    (∀ s, parseAttributeToInterface file attr = .str s →
      parseAttributeToBool file attr = (toLowerStr (trimSpace s) == "true")) ∧
    (∀ i, parseAttributeToInterface file attr = .int i →
      parseAttributeToBool file attr = false) ∧
    (∀ q, parseAttributeToInterface file attr = .float q →
      parseAttributeToBool file attr = false) ∧
    (parseAttributeToInterface file attr = .nil →
      parseAttributeToBool file attr = false) := by
  refine ⟨?_, ?_, ?_, ?_, ?_⟩
  · intro b h
    simp [parseAttributeToBool, h]
  · intro s h
    simp only [parseAttributeToBool, h]
    by_cases h1 : toLowerStr (trimSpace s) = "true"
    · simp [h1]
    · by_cases h2 : (trimSpace s).toLower = "false"
      · simp [h1, h2]
      · simp [h1, h2]
  · intro i h
    simp [parseAttributeToBool, h]
  · intro q h
    simp [parseAttributeToBool, h]
  · intro h
    simp [parseAttributeToBool, h]

/-- Closed instance of C4 (amended): "TRUE" coerces to true, a Bool false is
returned unchanged. -/
theorem parseAttributeToBool_spec_witness :
    parseAttributeToBool ""
      { attrName := "x", expr := .literalValue (.str "TRUE") ⟨0, 6⟩ } = true ∧
    parseAttributeToBool ""
      { attrName := "x", expr := .literalValue (.bool false) ⟨0, 5⟩ } = false := by
  constructor
  · have h := (parseAttributeToBool_spec ""
      { attrName := "x", expr := .literalValue (.str "TRUE") ⟨0, 6⟩ }).2.1 "TRUE" rfl
    rw [h]
    decide
  · exact (parseAttributeToBool_spec ""
      { attrName := "x", expr := .literalValue (.bool false) ⟨0, 5⟩ }).1 false rfl

theorem head?_data_append (s t : String) (c : Char)
    (hc : s.data.head? = some c) : (s ++ t).data.head? = some c := by
  rw [String.data_append]
  cases hs : s.data with
  | nil => simp [hs] at hc
  | cons x xs =>
    simp [hs] at hc
    simp [hs, hc]

/-- Every error produced by the nested-validation loop of `Variable.Parse`
starts with the wrap prefix (first character 'e'), hence is distinct from the
label-arity error. -/
theorem parseValidationBlocks_error_head (file varName : String)
    (bs : List Block) (e : String)
    (h : parseValidationBlocks file varName bs = .error e) :
    e.data.head? = some 'e' := by
  induction bs with
  | nil => exact absurd h (by simp [parseValidationBlocks])
  | cons b rest ih =>
    by_cases hb : b.btype = "validation"
    · simp only [parseValidationBlocks, if_pos hb] at h
      rcases hvv : VariableValidation.Parse file b with e' | v
      · rw [hvv] at h
        simp only [Except.error.injEq] at h
        rw [← h]
        exact head?_data_append _ _ _
          (head?_data_append _ _ _ (head?_data_append _ _ _ rfl))
      · rw [hvv] at h
        rcases hrec : parseValidationBlocks file varName rest with e2 | vs
        · rw [hrec] at h
          simp only [Except.error.injEq] at h
          exact ih (by rw [hrec, h])
        · rw [hrec] at h
          exact absurd h (by simp)
    · simp only [parseValidationBlocks, if_neg hb] at h
      exact ih h

/-- C5: a decoded variable is required exactly when the block has no `default`
attribute at all, and an explicit `default = null` attribute decodes to
required = false with default = Null. -/
theorem variable_required_iff_no_default (file : String) (block : Block)
    (v : Variable) :
    (Variable.Parse file block = .ok v →
      (v.required = true ↔ lookupAttribute block.attrs "default" = none)) ∧
    (∀ a rng, lookupAttribute block.attrs "default" = some a →
      a.expr = .literalValue .null rng →
      Variable.Parse file block = .ok v →
      v.required = false ∧ v.vdefault = .nil) := by
  obtain ⟨bt, labels, attrs, nested⟩ := block
  constructor
  · intro h
    rcases labels with _ | ⟨l, rest⟩
    · exact absurd h (by simp [Variable.Parse, Block.labels])
    · rcases rest with _ | ⟨l2, rest2⟩
      · simp only [Variable.Parse, Block.labels, Block.attrs, Block.nested] at h
        rcases hpv : parseValidationBlocks file l nested with e | vs
        · rw [hpv] at h
          exact absurd h (by simp)
        · rw [hpv] at h
          simp only [Except.ok.injEq] at h
          subst h
          rcases hlk : lookupAttribute attrs "default" with _ | a <;>
            simp [Block.attrs, hlk]
      · exact absurd h (by simp [Variable.Parse, Block.labels])
  · intro a rng hlk hexpr h
    rcases labels with _ | ⟨l, rest⟩
    · exact absurd h (by simp [Variable.Parse, Block.labels])
    · rcases rest with _ | ⟨l2, rest2⟩
      · simp only [Variable.Parse, Block.labels, Block.attrs, Block.nested] at h
        rcases hpv : parseValidationBlocks file l nested with e | vs
        · rw [hpv] at h
          exact absurd h (by simp)
        · rw [hpv] at h
          simp only [Except.ok.injEq] at h
          subst h
          simp only [Block.attrs] at hlk
          simp [hlk, hexpr, parseAttributeToInterface]
      · exact absurd h (by simp [Variable.Parse, Block.labels])

/-- Closed instance of C5: a variable block carrying `default = null` decodes
with required = false and default = Null. -/
theorem variable_required_iff_no_default_witness :
    Variable.Parse ""
      (Block.mk "variable" ["x"]
        [("default", { attrName := "default", expr := .literalValue .null ⟨0, 4⟩ })]
        []) =
      .ok { varName := "x", description := "", vtype := "", vdefault := .nil,
            required := false, sensitive := false, validation := [] } ∧
    ({ varName := "x", description := "", vtype := "", vdefault := .nil,
       required := false, sensitive := false, validation := [] } :
        Variable).required = false := by
  refine ⟨rfl, ?_⟩
  exact (variable_required_iff_no_default ""
    (Block.mk "variable" ["x"]
      [("default", { attrName := "default", expr := .literalValue .null ⟨0, 4⟩ })]
      [])
    { varName := "x", description := "", vtype := "", vdefault := .nil,
      required := false, sensitive := false, validation := [] }).2
    { attrName := "default", expr := .literalValue .null ⟨0, 4⟩ } ⟨0, 4⟩
    rfl rfl rfl |>.1

/-- C6: `Variable.Parse` and `Output.Parse` fail with the labeled-block-arity
error exactly when the label count is not one (validation-shape failures
produce a differently-prefixed error, so the equivalence is exact), and
`Terraform.Parse` fails with the labels-not-allowed error exactly when the
block carries one or more labels. -/
theorem block_label_arity_errors (file : String) (block : Block) :
    (Variable.Parse file block = .error "variable block must have one label" ↔
      block.labels.length ≠ 1) ∧
    (Output.Parse file block = .error "variable block must have one label" ↔
      block.labels.length ≠ 1) ∧
    (Terraform.Parse file block = .error "terraform block must not have labels" ↔
      block.labels.length ≠ 0) := by
  obtain ⟨bt, labels, attrs, nested⟩ := block
  refine ⟨⟨?_, ?_⟩, ⟨?_, ?_⟩, ⟨?_, ?_⟩⟩
  · intro h
    rcases labels with _ | ⟨l, rest⟩
    · simp [Block.labels]
    · rcases rest with _ | ⟨l2, rest2⟩
      · exfalso
        simp only [Variable.Parse, Block.labels, Block.attrs, Block.nested] at h
        rcases hpv : parseValidationBlocks file l nested with e | vs
        · rw [hpv] at h
          simp only [Except.error.injEq] at h
          have he := parseValidationBlocks_error_head file l nested e hpv
          rw [h] at he
          exact absurd he (by decide)
        · rw [hpv] at h
          exact absurd h (by simp)
      · simp [Block.labels]
  · intro h
    rcases labels with _ | ⟨l, rest⟩
    · rfl
    · rcases rest with _ | ⟨l2, rest2⟩
      · exact (h (by simp [Block.labels])).elim
      · rfl
  · intro h
    rcases labels with _ | ⟨l, rest⟩
    · simp [Block.labels]
    · rcases rest with _ | ⟨l2, rest2⟩
      · exact absurd h (by simp [Output.Parse, Block.labels])
      · simp [Block.labels]
  · intro h
    rcases labels with _ | ⟨l, rest⟩
    · rfl
    · rcases rest with _ | ⟨l2, rest2⟩
      · exact (h (by simp [Block.labels])).elim
      · rfl
  · intro h
    rcases labels with _ | ⟨l, rest⟩
    · exact absurd h (by simp [Terraform.Parse, Block.labels])
    · simp [Block.labels]
  · intro h
    rcases labels with _ | ⟨l, rest⟩
    · exact (h (by simp [Block.labels])).elim
    · rfl

/-- Closed instance of C6: a zero-label variable block and a one-label
terraform block are rejected, a one-label output block is not rejected with
the arity error. -/
theorem block_label_arity_errors_witness :
    Variable.Parse "" (Block.mk "variable" [] [] []) =
      .error "variable block must have one label" ∧
    Terraform.Parse "" (Block.mk "terraform" ["x"] [] []) =
      .error "terraform block must not have labels" ∧
    ¬ (Output.Parse "" (Block.mk "output" ["o"] [] []) =
      .error "variable block must have one label") := by
  refine ⟨?_, ?_, ?_⟩
  · exact (block_label_arity_errors "" (Block.mk "variable" [] [] [])).1.mpr
      (by decide)
  · exact (block_label_arity_errors "" (Block.mk "terraform" ["x"] [] [])).2.2.mpr
      (by decide)
  · intro h
    exact absurd ((block_label_arity_errors ""
      (Block.mk "output" ["o"] [] [])).2.1.mp h) (by decide)

/-- C7 evaluation at the failing input: an `output` block with the wrong
number of labels is rejected with the message
"variable block must have one label", which names the `variable` keyword and
does not mention `output`; by contrast, a `validation` sub-block missing
`error_message` does produce an error naming the parent variable. -/
theorem output_arity_error_misnames_block :
    Output.Parse "" (Block.mk "output" [] [] []) =
      .error "variable block must have one label" ∧
    strContainsSub "variable block must have one label" "output" = false ∧
    strContainsSub "variable block must have one label" "variable" = true ∧
    parseValidationBlocks "" "myvar"
      [Block.mk "validation" []
        [("condition",
          { attrName := "condition", expr := .scopeTraversal "x" ⟨0, 1⟩ })] []] =
      .error
        "error parsing validation for variable myvar: error_message is missing in validation block" ∧
    strContainsSub
      "error parsing validation for variable myvar: error_message is missing in validation block"
      "myvar" = true := by
  refine ⟨rfl, by decide, by decide, rfl, by decide⟩

/-- `attr.Expr` is an `hclsyntax.ObjectConsExpr`. -/
def isObjectConsExpr : Expr → Bool
  | .objectCons _ _ => true
  | _ => false

/-- C10: on any attribute whose expression is not an object construction,
`parseAttributeToStringMap` returns the empty map without error or raw-text
fallback, so a `required_providers` entry with a non-object value decodes to
a provider record with empty source and empty version. -/
theorem asStringMap_non_object (file : String) (attr : Attribute)
    (h : isObjectConsExpr attr.expr = false) :
    parseAttributeToStringMap file attr = [] ∧
    (∀ pname : String,
      Terraform.Parse file
        (Block.mk "terraform" [] []
          [Block.mk "required_providers" [] [(pname, attr)] []]) =
        .ok { requiredVersion := "", experiments := [],
              requiredProviders :=
                [(pname, { source := "", version := "" })] }) := by
  have hmap : parseAttributeToStringMap file attr = [] := by
    obtain ⟨nm, e⟩ := attr
    cases e with
    | objectCons items rng => simp [isObjectConsExpr] at h
    | literalValue v rng => rfl
    | template parts rng => rfl
    | templateWrap w rng => rfl
    | scopeTraversal root rng => rfl
    | tupleCons es rng => rfl
    | objectConsKey w rng => rfl
    | functionCall n args rng => rfl
    | conditional c t f rng => rfl
    | binaryOp l rr rng => rfl
    | unaryOp v rng => rfl
    | indexAcc c k rng => rfl
    | getAttrAcc o n rng => rfl
    | splat sp rng => rfl
    | forExpr rng => rfl
    | paren i rng => rfl
  refine ⟨hmap, fun pname => ?_⟩
  simp only [Terraform.Parse, Block.labels, Block.attrs, Block.nested,
    parseRequiredProvidersBlocks, parseRequiredProviderAttrs, lookupAttribute,
    Block.btype, hmap]
  rfl

/-- Closed instance of C10: a `required_providers` entry whose value is a bare
traversal yields a provider with empty source and version. -/
theorem asStringMap_non_object_witness :
    parseAttributeToStringMap "foo"
      { attrName := "aws", expr := .scopeTraversal "foo" ⟨0, 3⟩ } = [] ∧
    Terraform.Parse "foo"
      (Block.mk "terraform" [] []
        [Block.mk "required_providers" []
          [("aws", { attrName := "aws", expr := .scopeTraversal "foo" ⟨0, 3⟩ })]
          []]) =
      .ok { requiredVersion := "", experiments := [],
            requiredProviders := [("aws", { source := "", version := "" })] } := by
  have h := asStringMap_non_object "foo"
    { attrName := "aws", expr := .scopeTraversal "foo" ⟨0, 3⟩ } rfl
  exact ⟨h.1, h.2 "aws"⟩

theorem parseOneBlock_error_shape (file : String) (b : Block) (e : String)
    (h : parseOneBlock file b = .error e) :
    ∃ einner, e = "failed to parse " ++ b.btype ++ " block: " ++ einner := by
  unfold parseOneBlock at h
  by_cases h1 : b.btype = "variable"
  · rw [if_pos h1] at h
    rcases hv : Variable.Parse file b with e' | v <;> rw [hv] at h
    · simp only [Except.error.injEq] at h
      exact ⟨e', h.symm⟩
    · exact absurd h (by simp)
  · rw [if_neg h1] at h
    by_cases h2 : b.btype = "output"
    · rw [if_pos h2] at h
      rcases ho : Output.Parse file b with e' | o <;> rw [ho] at h
      · simp only [Except.error.injEq] at h
        exact ⟨e', h.symm⟩
      · exact absurd h (by simp)
    · rw [if_neg h2] at h
      by_cases h3 : b.btype = "terraform"
      · rw [if_pos h3] at h
        rcases ht : Terraform.Parse file b with e' | t <;> rw [ht] at h
        · simp only [Except.error.injEq] at h
          exact ⟨e', h.symm⟩
        · exact absurd h (by simp)
      · rw [if_neg h3] at h
        exact absurd h (by simp)

theorem parseBlocks_error_shape (file : String) (blocks : List Block)
    (e : String) (h : parseBlocks file blocks = .error e) :
    ∃ b einner, b ∈ blocks ∧
      e = "failed to parse " ++ b.btype ++ " block: " ++ einner := by
  induction blocks with
  | nil => exact absurd h (by simp [parseBlocks])
  | cons b rest ih =>
    simp only [parseBlocks] at h
    rcases hob : parseOneBlock file b with e' | ob <;> rw [hob] at h
    · simp only [Except.error.injEq] at h
      obtain ⟨einner, he⟩ := parseOneBlock_error_shape file b e' hob
      exact ⟨b, einner, by simp, by rw [← h, he]⟩
    · rcases ob with _ | pb
      · obtain ⟨b', einner, hmem, he⟩ := ih h
        exact ⟨b', einner, by simp [hmem], he⟩
      · rcases hrec : parseBlocks file rest with e2 | pbs <;> rw [hrec] at h
        · simp only [Except.error.injEq] at h
          obtain ⟨b', einner, hmem, he⟩ := ih (by rw [hrec, h])
          exact ⟨b', einner, by simp [hmem], he⟩
        · exact absurd h (by simp)

theorem parseWorkspaceFiles_ok_processed (files : List WorkspaceFile)
    (bs : List ParsedBlock) (h : parseWorkspaceFiles files = .ok bs) :
    ∀ wf ∈ files, skippedEntry wf = false →
      ∃ hf pbs, wf.load = .ok hf ∧
        parseBlocks hf.fileBytes hf.blocks = .ok pbs := by
  induction files generalizing bs with
  | nil =>
    intro wf hmem
    simp at hmem
  | cons g rest ih =>
    intro wf hmem hskip
    simp only [parseWorkspaceFiles] at h
    by_cases hg : skippedEntry g
    · rw [if_pos hg] at h
      rcases List.mem_cons.mp hmem with rfl | hmem2
      · rw [hg] at hskip
        cases hskip
      · exact ih bs h wf hmem2 hskip
    · rw [if_neg hg] at h
      rcases hload : g.load with e | hf <;> simp only [hload] at h
      · exact absurd h (by simp)
      · rcases hpb : parseBlocks hf.fileBytes hf.blocks with e | pbs <;>
          simp only [hpb] at h
        · exact absurd h (by simp)
        · rcases hrec : parseWorkspaceFiles rest with e | more <;>
            simp only [hrec] at h
          · exact absurd h (by simp)
          · rcases List.mem_cons.mp hmem with rfl | hmem2
            · exact ⟨hf, pbs, hload, hpb⟩
            · exact ih more hrec wf hmem2 hskip

theorem parseWorkspaceFiles_first_error (pre : List WorkspaceFile)
    (wf : WorkspaceFile) (post : List WorkspaceFile) (hf : HclFile) (e : String)
    (hpre : ∀ g ∈ pre, skippedEntry g = true ∨
      ∃ f bs, g.load = .ok f ∧ parseBlocks f.fileBytes f.blocks = .ok bs)
    (hskip : skippedEntry wf = false) (hload : wf.load = .ok hf)
    (herr : parseBlocks hf.fileBytes hf.blocks = .error e) :
    parseWorkspaceFiles (pre ++ wf :: post) =
      .error ("failed to parse terraform blocks in " ++ wf.entry.entryName ++
        ": " ++ e) := by
  induction pre with
  | nil =>
    simp only [List.nil_append, parseWorkspaceFiles, hskip, hload, herr]
    simp
  | cons g rest ih =>
    have hrest := ih (fun g' hmem => hpre g' (by simp [hmem]))
    simp only [List.cons_append, parseWorkspaceFiles]
    by_cases hgs : skippedEntry g
    · rw [if_pos hgs]
      exact hrest
    · rw [if_neg hgs]
      rcases hpre g (by simp) with hg | ⟨f, gbs, hgload, hgpb⟩
      · exact absurd hg hgs
      · simp only [hgload, hgpb, List.append_eq, hrest]

/-- C8: a successfully parsed workspace contains no failed file (no partial
results), the first block-decoding failure aborts the whole parse with an
error naming the originating file, and a block-decoding failure is always
wrapped with the offending block keyword. -/
theorem workspace_fail_fast_no_partial :
    (∀ (files : List WorkspaceFile) (cfg : TerraformConfig),
      ParseTerraformWorkspace files = .ok cfg →
      ∀ wf ∈ files, skippedEntry wf = false →
        ∃ hf bs, wf.load = .ok hf ∧
          parseBlocks hf.fileBytes hf.blocks = .ok bs) ∧
    (∀ (pre : List WorkspaceFile) (wf : WorkspaceFile)
      (post : List WorkspaceFile) (hf : HclFile) (e : String),
      (∀ g ∈ pre, skippedEntry g = true ∨
        ∃ f bs, g.load = .ok f ∧ parseBlocks f.fileBytes f.blocks = .ok bs) →
      skippedEntry wf = false → wf.load = .ok hf →
      parseBlocks hf.fileBytes hf.blocks = .error e →
      ParseTerraformWorkspace (pre ++ wf :: post) =
        .error ("failed to parse terraform blocks in " ++ wf.entry.entryName ++
          ": " ++ e)) ∧
    (∀ (file : String) (blocks : List Block) (e : String),
      parseBlocks file blocks = .error e →
      ∃ b einner, b ∈ blocks ∧
        e = "failed to parse " ++ b.btype ++ " block: " ++ einner) := by
  refine ⟨?_, ?_, parseBlocks_error_shape⟩
  · intro files cfg h wf hmem hskip
    unfold ParseTerraformWorkspace at h
    rcases hws : parseWorkspaceFiles files with e | blocks <;> rw [hws] at h
    · exact absurd h (by simp)
    · exact parseWorkspaceFiles_ok_processed files blocks hws wf hmem hskip
  · intro pre wf post hf e hpre hskip hload herr
    unfold ParseTerraformWorkspace
    rw [parseWorkspaceFiles_first_error pre wf post hf e hpre hskip hload herr]

/-- Closed instance of C8: a workspace whose single `.tf` file holds a
label-less variable block aborts with the wrapped error chain naming the file
and the block keyword. -/
theorem workspace_fail_fast_no_partial_witness :
    ParseTerraformWorkspace
      [⟨⟨"main.tf", false⟩, .ok ⟨"", [Block.mk "variable" [] [] []]⟩⟩] =
      .error
        "failed to parse terraform blocks in main.tf: failed to parse variable block: variable block must have one label" := by
  have h := workspace_fail_fast_no_partial.2.1 []
    ⟨⟨"main.tf", false⟩, .ok ⟨"", [Block.mk "variable" [] [] []]⟩⟩ []
    ⟨"", [Block.mk "variable" [] [] []]⟩
    "failed to parse variable block: variable block must have one label"
    (by intro g hg; simp at hg) (by decide) rfl rfl
  exact h

/-- Projection of a parsed block to its variable record, if of that kind. -/
def pbVar : ParsedBlock → Option Variable
  | .variableBlock v => some v
  | _ => none

/-- Projection of a parsed block to its output record, if of that kind. -/
def pbOut : ParsedBlock → Option Output
  | .outputBlock o => some o
  | _ => none

/-- Projection of a parsed block to its terraform record, if of that kind. -/
def pbTf : ParsedBlock → Option Terraform
  | .terraformBlock t => some t
  | _ => none

theorem tfconfigStep_foldl (cfg : TerraformConfig) (bs : List ParsedBlock) :
    bs.foldl tfconfigStep cfg =
      ⟨cfg.Variables ++ bs.filterMap pbVar, cfg.Outputs ++ bs.filterMap pbOut,
       cfg.Terraforms ++ bs.filterMap pbTf⟩ := by
  induction bs generalizing cfg with
  | nil => simp
  | cons pb rest ih =>
    cases pb with
    | variableBlock v =>
      simp [List.foldl_cons, ih, tfconfigStep, pbVar, pbOut, pbTf]
    | outputBlock o =>
      simp [List.foldl_cons, ih, tfconfigStep, pbVar, pbOut, pbTf]
    | terraformBlock t =>
      simp [List.foldl_cons, ih, tfconfigStep, pbVar, pbOut, pbTf]

/-- C9: a successful parse partitions the decoded blocks into the three lists
of the aggregate record by kind, preserving order and without any
de-duplication (the lists are exactly `filterMap` projections of the
concatenated block list); top-level blocks of any other keyword are skipped
without error; and the per-file block lists are concatenated in
file-enumeration order. -/
theorem workspace_aggregate_partition :
    (∀ bs : List ParsedBlock,
      (generateTerraformConfig bs).Variables = bs.filterMap pbVar ∧
      (generateTerraformConfig bs).Outputs = bs.filterMap pbOut ∧
      (generateTerraformConfig bs).Terraforms = bs.filterMap pbTf) ∧
    (∀ (file : String) (b : Block) (rest : List Block),
      b.btype ≠ "variable" → b.btype ≠ "output" → b.btype ≠ "terraform" →
      parseBlocks file (b :: rest) = parseBlocks file rest) ∧
    (∀ (wf : WorkspaceFile) (rest : List WorkspaceFile) (hf : HclFile)
      (bs l : List ParsedBlock),
      skippedEntry wf = false → wf.load = .ok hf →
      parseBlocks hf.fileBytes hf.blocks = .ok bs →
      parseWorkspaceFiles rest = .ok l →
      parseWorkspaceFiles (wf :: rest) = .ok (bs ++ l)) := by
  refine ⟨?_, ?_, ?_⟩
  · intro bs
    unfold generateTerraformConfig
    rw [tfconfigStep_foldl]
    simp
  · intro file b rest h1 h2 h3
    simp only [parseBlocks, parseOneBlock, if_neg h1, if_neg h2, if_neg h3]
  · intro wf rest hf bs l hskip hload hpb hrest
    simp only [parseWorkspaceFiles, hskip, hload, hpb, hrest]
    simp

/-- Closed instance of C9: two identically-labeled variable blocks both appear
in the aggregate, a `locals` block is skipped, and an empty file contributes
an empty block list. -/
theorem workspace_aggregate_partition_witness :
    (generateTerraformConfig
      [.variableBlock ⟨"x", "", "", .nil, true, false, []⟩,
       .variableBlock ⟨"x", "", "", .nil, true, false, []⟩]).Variables =
      [⟨"x", "", "", .nil, true, false, []⟩,
       ⟨"x", "", "", .nil, true, false, []⟩] ∧
    parseBlocks "" [Block.mk "locals" [] [] []] = .ok [] ∧
    parseWorkspaceFiles [⟨⟨"a.tf", false⟩, .ok ⟨"", []⟩⟩] = .ok [] := by
  refine ⟨?_, ?_, ?_⟩
  · rw [(workspace_aggregate_partition.1
      [.variableBlock ⟨"x", "", "", .nil, true, false, []⟩,
       .variableBlock ⟨"x", "", "", .nil, true, false, []⟩]).1]
    decide
  · exact workspace_aggregate_partition.2.1 "" (Block.mk "locals" [] [] []) []
      (by decide) (by decide) (by decide)
  · exact workspace_aggregate_partition.2.2 ⟨⟨"a.tf", false⟩, .ok ⟨"", []⟩⟩ []
      ⟨"", []⟩ [] [] (by decide) rfl rfl rfl

end TfParser
